import Mathlib

/-!
Verification development for the sql-formatter-handle-space repository.

The tokenizer, indentation tracker, inline-block detector, params resolver and
formatter are shallowly embedded as executable Lean functions.  Token values and
query strings are `List Char`; each JavaScript regex recognizer is translated
into an explicit matcher returning the length of the matched prefix (the JS
code always uses capture group 1, which spans the whole anchored match, and
advances the input by `token.value.length`).
-/

namespace SqlFormatter

/-- Token type constants, from tokenTypes (`part_000` lines 10-26). -/
inductive TokenType where
  | whitespace
  | word
  | string
  | reserved
  | reservedToplevel
  | reservedToplevelInline
  | unionWords
  | reservedNewline
  | operator
  | openParen
  | closeParen
  | lineComment
  | blockComment
  | number
  | placeholder
deriving DecidableEq

/-- A token: type, raw matched text, and an optional placeholder key. -/
structure Token where
  type : TokenType
  value : List Char
  key : Option (List Char) := none
deriving DecidableEq

/-- The character class of the JavaScript regex `\s` (also what `String.prototype.trim`
and lodash `trimEnd` strip). -/
def jsSpace (c : Char) : Bool :=
  c == ' ' || c == '\t' || c == '\n' || c == '\x0b' || c == '\x0c' || c == '\r' ||
  c == '\u00A0' || c == '\u1680' ||
  (decide ('\u2000' ≤ c) && decide (c ≤ '\u200A')) ||
  c == '\u2028' || c == '\u2029' || c == '\u202F' || c == '\u205F' ||
  c == '\u3000' || c == '\uFEFF'

/-- JavaScript line terminators: the characters NOT matched by the regex `.` metachar. -/
def isLineTerm (c : Char) : Bool :=
  c == '\n' || c == '\r' || c == '\u2028' || c == '\u2029'

/-- The character class of the JavaScript regex `\w`. -/
def isWordChar (c : Char) : Bool :=
  (decide ('a' ≤ c) && decide (c ≤ 'z')) || (decide ('A' ≤ c) && decide (c ≤ 'Z')) ||
  (decide ('0' ≤ c) && decide (c ≤ '9')) || c == '_'

def isDigitChar (c : Char) : Bool :=
  decide ('0' ≤ c) && decide (c ≤ '9')

def isHexDigitChar (c : Char) : Bool :=
  isDigitChar c || (decide ('a' ≤ c) && decide (c ≤ 'f')) ||
  (decide ('A' ≤ c) && decide (c ≤ 'F'))

def isBinDigitChar (c : Char) : Bool :=
  c == '0' || c == '1'

/-- The backtick character (0x60). -/
def btChar : Char := '\x60'

/-- Regex `\b` test at offset `n` into `cs`, for matches whose last consumed
character is a word character (true for every keyword/number match here):
the boundary holds iff the next input character is absent or a non-word character. -/
def boundaryAfter (cs : List Char) (n : Nat) : Bool :=
  match cs.drop n with
  | [] => true
  | c :: _ => !(isWordChar c)

/-- Literal (case-sensitive) prefix test. -/
def startsWithChars : List Char → List Char → Bool
  | [], _ => true
  | _ :: _, [] => false
  | p :: ps, c :: cs => p == c && startsWithChars ps cs

/-- Case-insensitive prefix test (regex `i` flag on ASCII letters). -/
def startsWithCI : List Char → List Char → Bool
  | [], _ => true
  | _ :: _, [] => false
  | p :: ps, c :: cs => p.toLower == c.toLower && startsWithCI ps cs

/-- Matcher for `WHITESPACE_REGEX = /^(\s+)/` (`part_000` line 651). -/
def matchWhitespace (cs : List Char) : Option Nat :=
  let k := (cs.takeWhile jsSpace).length
  if k = 0 then none else some k

/-- Body of a line comment after its marker: lazy `.*?(?:\n|$)`.  The lazy scan
stops at the first `\n` (consumed) or at end of input; a line terminator other
than `\n` cannot be matched by `.` and makes the whole regex fail. -/
def lcBody : List Char → Option Nat
  | [] => some 0
  | c :: rest =>
    if c == '\n' then some 1
    else if isLineTerm c then none
    else (lcBody rest).map (fun n => 1 + n)

/-- Matcher for the line-comment regex built from `lineCommentTypes = ['#', '--']`:
`^((?:#|--).*?(?:\n|$))` (`part_000` lines 694-700, config line 1188). -/
def matchLineComment (cs : List Char) : Option Nat :=
  match cs with
  | '#' :: rest => (lcBody rest).map (fun n => 1 + n)
  | '-' :: '-' :: rest => (lcBody rest).map (fun n => 2 + n)
  | _ => none

/-- Body of a block comment after the opening marker: lazy `[^]*?(?:\*\/|$)`:
everything (newlines included) up to and including the first closing marker,
or the whole rest of the input when unterminated. -/
def bcBody : List Char → Option Nat
  | [] => some 0
  | '*' :: '/' :: _ => some 2
  | _ :: rest => (bcBody rest).map (fun n => 1 + n)

/-- Matcher for `BLOCK_COMMENT_REGEX = /^(\/\*[^]*?(?:\*\/|$))/` (`part_000` line 655). -/
def matchBlockComment (cs : List Char) : Option Nat :=
  match cs with
  | '/' :: '*' :: rest => (bcBody rest).map (fun n => 2 + n)
  | _ => none

/-- Double-quoted string body after the opening quote, for the pattern
`(("[^"\\]*(?:\\.[^"\\]*)*("|$))+)`: normal characters flow, a backslash must be
followed by a `.`-matchable character, a closing quote may be followed by
another unit (the greedy `+`; if that further unit fails, backtracking keeps
just the close). -/
def dqBody : List Char → Option Nat
  | [] => some 0
  | '"' :: '"' :: rest =>
    match dqBody rest with
    | some m => some (2 + m)
    | none => some 1
  | '"' :: _ => some 1
  | '\\' :: d :: rest =>
    if isLineTerm d then none else (dqBody rest).map (fun n => 2 + n)
  | '\\' :: [] => none
  | _ :: rest => (dqBody rest).map (fun n => 1 + n)

def matchDq (cs : List Char) : Option Nat :=
  match cs with
  | '"' :: rest => (dqBody rest).map (fun n => 1 + n)
  | _ => none

/-- Single-quoted string body, pattern `(('[^'\\]*(?:\\.[^'\\]*)*('|$))+)`. -/
def sqBody : List Char → Option Nat
  | [] => some 0
  | '\x27' :: '\x27' :: rest =>
    match sqBody rest with
    | some m => some (2 + m)
    | none => some 1
  | '\x27' :: _ => some 1
  | '\\' :: d :: rest =>
    if isLineTerm d then none else (sqBody rest).map (fun n => 2 + n)
  | '\\' :: [] => none
  | _ :: rest => (sqBody rest).map (fun n => 1 + n)

def matchSq (cs : List Char) : Option Nat :=
  match cs with
  | '\x27' :: rest => (sqBody rest).map (fun n => 1 + n)
  | _ => none

/-- National-character string body, pattern `((N'[^N'\\]*(?:\\.[^N'\\]*)*('|$))+)`.
Note the character class excludes the capital letter N itself, and a further
unit of the `+` must start with `N'`. -/
def nqBody : List Char → Option Nat
  | [] => some 0
  | '\x27' :: 'N' :: '\x27' :: rest =>
    match nqBody rest with
    | some m => some (3 + m)
    | none => some 1
  | '\x27' :: _ => some 1
  | '\\' :: d :: rest =>
    if isLineTerm d then none else (nqBody rest).map (fun n => 2 + n)
  | '\\' :: [] => none
  | 'N' :: _ => none
  | _ :: rest => (nqBody rest).map (fun n => 1 + n)

def matchNq (cs : List Char) : Option Nat :=
  match cs with
  | 'N' :: '\x27' :: rest => (nqBody rest).map (fun n => 2 + n)
  | _ => none

/-- Backtick-quoted string body, pattern `((`...`)+)` where each unit is a
backtick, then non-backticks, then a backtick or end of input. -/
def bqBody : List Char → Option Nat
  | [] => some 0
  | c :: rest =>
    if c == btChar then
      match rest with
      | r :: rest2 =>
        if r == btChar then
          match bqBody rest2 with
          | some m => some (2 + m)
          | none => some 1
        else some 1
      | [] => some 1
    else (bqBody rest).map (fun n => 1 + n)

def matchBq (cs : List Char) : Option Nat :=
  match cs with
  | c :: rest => if c == btChar then (bqBody rest).map (fun n => 1 + n) else none
  | [] => none

/-- Bracket-quoted string scan for `((\[[^\]]*($|\]))(\][^\]]*($|\]))*)`.
With `inUnit = true` the scan is inside a unit after its opening bracket:
non-`]` characters flow and a `]` closes the unit; with `inUnit = false` a
following `]` starts another unit of the star, anything else stops. -/
def bracketGo : Bool → List Char → Nat
  | true, [] => 0
  | true, c :: rest => if c == ']' then 1 + bracketGo false rest else 1 + bracketGo true rest
  | false, [] => 0
  | false, c :: rest => if c == ']' then 1 + bracketGo true rest else 0

def matchBracket (cs : List Char) : Option Nat :=
  match cs with
  | '[' :: rest => some (1 + bracketGo true rest)
  | _ => none

/-- Matcher for `STRING_REGEX` with `stringTypes = ['""', "N''", "''", '``', '[]']`
(`part_000` lines 713-733, config line 1184): alternatives tried left to right. -/
def matchString (cs : List Char) : Option Nat :=
  matchDq cs <|> matchNq cs <|> matchSq cs <|> matchBq cs <|> matchBracket cs

/-- Matcher for `OPEN_PAREN_REGEX` built from `openParens = ['(', 'CASE']`
(`part_000` lines 735-750): `^((|\bCASE\b))` with the `i` flag; a word paren
is wrapped in word boundaries. -/
def matchOpenParen (cs : List Char) : Option Nat :=
  match cs with
  | '(' :: _ => some 1
  | _ => if startsWithCI "case".data cs && boundaryAfter cs 4 then some 4 else none

/-- Matcher for `CLOSE_PAREN_REGEX` built from `closeParens = [')', 'END']`. -/
def matchCloseParen (cs : List Char) : Option Nat :=
  match cs with
  | ')' :: _ => some 1
  | _ => if startsWithCI "end".data cs && boundaryAfter cs 3 then some 3 else none

/-- First alternative of `NUMBER_REGEX = /^((-\s*)?[0-9]+(\.[0-9]+)?|0x[0-9a-fA-F]+|0b[01]+)\b/`
(`part_000` line 652).  The trailing `\b` sits outside the alternation: when it
fails after a fractional part, backtracking drops the optional fraction (the
following `.` then satisfies the boundary); an integer match with a word
character right after it cannot be rescued and the alternative fails. -/
def matchNumAlt1 (cs : List Char) : Option Nat :=
  let m : Nat :=
    match cs with
    | '-' :: rest => 1 + (rest.takeWhile jsSpace).length
    | _ => 0
  let afterM := cs.drop m
  let d1 := (afterM.takeWhile isDigitChar).length
  if d1 = 0 then none
  else
    let fracLen : Nat :=
      match afterM.drop d1 with
      | '.' :: rest =>
        let d2 := (rest.takeWhile isDigitChar).length
        if d2 = 0 then 0 else 1 + d2
      | _ => 0
    if fracLen ≠ 0 then
      if boundaryAfter cs (m + d1 + fracLen) then some (m + d1 + fracLen)
      else some (m + d1)
    else
      if boundaryAfter cs (m + d1) then some (m + d1) else none

def matchNumAlt2 (cs : List Char) : Option Nat :=
  match cs with
  | '0' :: 'x' :: rest =>
    let h := (rest.takeWhile isHexDigitChar).length
    if h = 0 then none
    else if boundaryAfter cs (2 + h) then some (2 + h) else none
  | _ => none

def matchNumAlt3 (cs : List Char) : Option Nat :=
  match cs with
  | '0' :: 'b' :: rest =>
    let h := (rest.takeWhile isBinDigitChar).length
    if h = 0 then none
    else if boundaryAfter cs (2 + h) then some (2 + h) else none
  | _ => none

def matchNumber (cs : List Char) : Option Nat :=
  matchNumAlt1 cs <|> matchNumAlt2 cs <|> matchNumAlt3 cs

/-- One element of the regex a keyword compiles to in `createReservedWordRegex`
(`part_000` lines 702-707): a space in the keyword becomes `\s+`, every other
character a (case-insensitive) literal. -/
inductive KwItem where
  | spaces
  | ch (c : Char)
deriving DecidableEq

/-- Compile a keyword to its regex elements: keywords are joined into the
pattern verbatim (no escaping), so the `()` in the keyword `now()` is an empty
regex group matching nothing, and `' '` is replaced by `\s+`. -/
def kwItems : List Char → List KwItem
  | [] => []
  | '(' :: ')' :: pat => kwItems pat
  | ' ' :: pat => .spaces :: kwItems pat
  | c :: pat => .ch c :: kwItems pat

/-- Run a compiled keyword pattern against the input: `\s+` consumes a maximal
non-empty whitespace run (the following element is never whitespace-matching,
so the greedy run cannot backtrack), a literal matches case-insensitively. -/
def matchKw : List KwItem → List Char → Option Nat
  | [], _ => some 0
  | .spaces :: pat, cs =>
    let k := (cs.takeWhile jsSpace).length
    if k = 0 then none
    else (matchKw pat (cs.drop k)).map (fun n => k + n)
  | .ch p :: pat, c :: cs =>
    if p.toLower == c.toLower then (matchKw pat cs).map (fun n => 1 + n) else none
  | .ch _ :: _, [] => none

/-- Matcher for one keyword alternative of a reserved-word regex. -/
def matchKeyword (cs : List Char) (w : List Char) : Option Nat :=
  matchKw (kwItems w) cs

/-- Keyword alternation `^(w1|w2|...)\b`: alternatives in list order; when one
matches but the trailing word boundary fails, the engine backtracks to the
next alternative. -/
def matchKeywordList (ws : List String) (cs : List Char) : Option Nat :=
  match ws with
  | [] => none
  | w :: rest =>
    match matchKeyword cs w.data with
    | some n => if boundaryAfter cs n then some n else matchKeywordList rest cs
    | none => matchKeywordList rest cs

/-- Plain reserved words (`part_000` lines 1004-1100). -/
def reservedWords : List String :=
  ["as", "asc", "auto_increment", "between", "case", "character set", "charset",
   "comment", "contains", "current_timestamp", "current_date", "count", "coalesce",
   "database", "databases", "default", "delete", "desc", "describe", "distinct",
   "else", "end", "engine", "exists", "explain", "fields", "file", "foreign",
   "full", "function", "global", "grant", "grants", "group_concat", "hour",
   "identified", "if", "ifnull", "in", "index", "indexes", "infile", "insert",
   "interval", "into", "invoker", "is", "key", "keys", "kill", "like", "match",
   "minute", "min", "max", "modify", "month", "names", "now()", "null",
   "partition", "partitions", "regexp", "rename", "replace", "replication",
   "reset", "rlike", "row", "rows", "row_format", "second", "storage", "string",
   "sum", "table", "tables", "temporary", "terminated", "then", "to", "true",
   "truncate", "type", "types", "uncommitted", "unique", "unsigned", "usage",
   "use", "using", "variables", "view", "when", "with"]

/-- Top-level reserved words (`part_000` lines 1102-1113). -/
def reservedToplevelWords : List String :=
  ["delete from", "except", "group by", "order by", "having", "intersect",
   "modify", "select", "update", "values"]

/-- Union words (`part_000` line 1115). -/
def unionWordsList : List String := ["union all", "union"]

/-- Top-level inline reserved words (`part_000` lines 1117-1137). -/
def reservedToplevelInLineWords : List String :=
  ["use", "drop table", "create table", "from", "where", "limit", "create",
   "insert overwrite", "insert into", "inner join", "full join",
   "full outer join", "join", "left join", "left outer join", "outer join",
   "right join", "right outer join", "on"]

/-- Newline reserved words (`part_000` lines 1139-1157). -/
def reservedNewlineWords : List String :=
  ["and", "or", "partitioned by", "row format", "fields terminated by",
   "lines terminated by", "stored as", "tblproperties", "alter table",
   "add jar", "after", "alter column", "cross apply", "cross join", "set",
   "when", "else"]

/-- The alternatives of `OPERATOR_REGEX` before the final catch-all `.`
(`part_000` line 653), in source order. -/
def opChars : List (List Char) :=
  ["!=".data, "<>".data, "==".data, "<=".data, ">=".data, "!<".data, "!>".data,
   "||".data, "::".data, "->>".data, "->".data, "~~*".data, "~~".data,
   "!~~*".data, "!~~".data, "~*".data, "!~*".data, "!~".data]

def opGo : List (List Char) → List Char → Option Nat
  | [], cs =>
    match cs with
    | c :: _ => if isLineTerm c then none else some 1
    | [] => none
  | o :: os, cs => if startsWithChars o cs then some o.length else opGo os cs

/-- Matcher for `OPERATOR_REGEX`: the listed multi-character operators in order,
then `.` (any single character except a line terminator). -/
def matchOperator (cs : List Char) : Option Nat :=
  opGo opChars cs

/-- Wrap a matcher result as a token: the value is the matched input prefix
(capture group 1 always spans the whole anchored match). -/
def tokenOfMatch (ty : TokenType) (cs : List Char) (r : Option Nat) : Option Token :=
  r.map (fun n => { type := ty, value := cs.take n, key := none })

def getWhitespaceToken (cs : List Char) : Option Token :=
  tokenOfMatch .whitespace cs (matchWhitespace cs)

def getLineCommentToken (cs : List Char) : Option Token :=
  tokenOfMatch .lineComment cs (matchLineComment cs)

def getBlockCommentToken (cs : List Char) : Option Token :=
  tokenOfMatch .blockComment cs (matchBlockComment cs)

def getCommentToken (cs : List Char) : Option Token :=
  getLineCommentToken cs <|> getBlockCommentToken cs

def getStringToken (cs : List Char) : Option Token :=
  tokenOfMatch .string cs (matchString cs)

def getOpenParenToken (cs : List Char) : Option Token :=
  tokenOfMatch .openParen cs (matchOpenParen cs)

def getCloseParenToken (cs : List Char) : Option Token :=
  tokenOfMatch .closeParen cs (matchCloseParen cs)

def getNumberToken (cs : List Char) : Option Token :=
  tokenOfMatch .number cs (matchNumber cs)

def getToplevelReservedToken (cs : List Char) : Option Token :=
  tokenOfMatch .reservedToplevel cs (matchKeywordList reservedToplevelWords cs)

def getToplevelInLineReservedToken (cs : List Char) : Option Token :=
  tokenOfMatch .reservedToplevelInline cs (matchKeywordList reservedToplevelInLineWords cs)

def getNewlineReservedToken (cs : List Char) : Option Token :=
  tokenOfMatch .reservedNewline cs (matchKeywordList reservedNewlineWords cs)

def getPlainReservedToken (cs : List Char) : Option Token :=
  tokenOfMatch .reserved cs (matchKeywordList reservedWords cs)

def getUnionWordsToken (cs : List Char) : Option Token :=
  tokenOfMatch .unionWords cs (matchKeywordList unionWordsList cs)

/-- Reserved-word dispatcher (`part_000` lines 928-945): skipped entirely when
the immediately preceding token's value is a dot. -/
def getReservedWordToken (cs : List Char) (prev : Option Token) : Option Token :=
  if (match prev with | some t => t.value == ".".data | none => false) then none
  else
    getToplevelReservedToken cs <|> getToplevelInLineReservedToken cs <|>
    getNewlineReservedToken cs <|> getPlainReservedToken cs <|>
    getUnionWordsToken cs

/-- Matcher for `WORD_REGEX`: `^([\w]+)` (no special word chars are configured). -/
def matchWord (cs : List Char) : Option Nat :=
  let k := (cs.takeWhile isWordChar).length
  if k = 0 then none else some k

def getWordToken (cs : List Char) : Option Token :=
  tokenOfMatch .word cs (matchWord cs)

def getOperatorToken (cs : List Char) : Option Token :=
  tokenOfMatch .operator cs (matchOperator cs)

/-- Recognizer cascade of `getNextToken` (`part_000` lines 786-799).  The
placeholder recognizer is commented out in the source and therefore absent. -/
def getNextToken (cs : List Char) (prev : Option Token) : Option Token :=
  getWhitespaceToken cs <|> getCommentToken cs <|> getStringToken cs <|>
  getOpenParenToken cs <|> getCloseParenToken cs <|> getNumberToken cs <|>
  getReservedWordToken cs prev <|> getWordToken cs <|> getOperatorToken cs

/-- The `tokenize` loop (`part_000` lines 770-784) with explicit fuel; the input
is advanced by `token.value.length` each iteration.  With fuel at least the
input length the fuel never runs out (each token is non-empty), and a `none`
from `getNextToken` is unreachable on non-empty input. -/
def tokenizeAux : Nat → List Char → Option Token → List Token
  | 0, _, _ => []
  | fuel + 1, cs, prev =>
    match cs with
    | [] => []
    | _ :: _ =>
      match getNextToken cs prev with
      | none => []
      | some t => t :: tokenizeAux fuel (cs.drop t.value.length) (some t)

def tokenizeChars (cs : List Char) : List Token :=
  tokenizeAux cs.length cs none

def tokenize (s : String) : List Token :=
  tokenizeChars s.data

/-- Indent marker kinds (`part_000` lines 28-29). -/
inductive IndentType where
  | topLevel
  | blockLevel
deriving DecidableEq

/-- State of the Indentation tracker (`part_000` lines 39-131).  The head of
`indentTypes` is the top of the JS array stack (its last element).  The three
boolean class fields are commented out in the source constructor, so a fresh
instance carries them as `undefined` (falsy), modeled as `false`. -/
structure Indentation where
  indent : List Char
  indentTypes : List IndentType
  toTrimEnd : Bool
  toStartNewLine : Bool
  toSetWhiteSpace : Bool
deriving DecidableEq

/-- Constructor: `this.indent = indent || '  '` (an empty string is falsy too). -/
def Indentation.new (ind : Option (List Char)) : Indentation :=
  { indent := match ind with
      | some s => if s = [] then "  ".data else s
      | none => "  ".data
    indentTypes := []
    toTrimEnd := false
    toStartNewLine := false
    toSetWhiteSpace := false }

def Indentation.setNoTrimEnd (st : Indentation) : Indentation :=
  { st with toTrimEnd := false }

/-- Reading the trim-pending-end flag: a truthy flag reads as `true`; otherwise
the flag is set to `true` and the read yields `false`. -/
def Indentation.getTrimEnd (st : Indentation) : Bool × Indentation :=
  if st.toTrimEnd then (true, st) else (false, { st with toTrimEnd := true })

def Indentation.setNoNewLine (st : Indentation) : Indentation :=
  { st with toStartNewLine := false }

def Indentation.getStartNewLine (st : Indentation) : Bool × Indentation :=
  if st.toStartNewLine then (true, st) else (false, { st with toStartNewLine := true })

def Indentation.setWhiteSpace (st : Indentation) (b : Bool) : Indentation :=
  { st with toSetWhiteSpace := b }

def Indentation.getWhiteSpace (st : Indentation) : Bool :=
  st.toSetWhiteSpace

def repeatChars (u : List Char) : Nat → List Char
  | 0 => []
  | n + 1 => u ++ repeatChars u n

def Indentation.getIndent (st : Indentation) : List Char :=
  repeatChars st.indent st.indentTypes.length

def Indentation.increaseToplevel (st : Indentation) : Indentation :=
  { st with indentTypes := .topLevel :: st.indentTypes }

def Indentation.increaseBlockLevel (st : Indentation) : Indentation :=
  { st with indentTypes := .blockLevel :: st.indentTypes }

/-- Pop the top marker only when it is a top-level marker (`part_000` lines 112-116). -/
def Indentation.decreaseTopLevel (st : Indentation) : Indentation :=
  match st.indentTypes with
  | .topLevel :: rest => { st with indentTypes := rest }
  | _ => st

/-- The loop of `decreaseBlockLevel` (`part_000` lines 123-130): pop markers,
stopping right after the first popped marker that is not top-level. -/
def decreaseBlockLevelTypes : List IndentType → List IndentType
  | [] => []
  | t :: rest => if t = .topLevel then decreaseBlockLevelTypes rest else rest

def Indentation.decreaseBlockLevel (st : Indentation) : Indentation :=
  { st with indentTypes := decreaseBlockLevelTypes st.indentTypes }

/-- Forbidden-token test of InlineBlock (`part_000` lines 215-221).  The source
compares the token type against `tokenTypes.COMMENT`, a key that does not exist
in the token type table: that comparison is against `undefined` and can never
hold, which the literal `false` disjunct records. -/
def isForbiddenToken (t : Token) : Bool :=
  t.type == .reservedToplevel || t.type == .reservedNewline ||
  false ||
  t.type == .blockComment || t.value == ";".data

/-- Scan loop of `isInlineBlock` (`part_000` lines 183-211): accumulate value
lengths and paren depth; fail past 200 characters; succeed when depth returns
to zero at a close paren (checked before the forbidden-token test). -/
def isInlineBlockGo : List Token → Nat → Int → Bool
  | [], _, _ => false
  | t :: rest, len, level =>
    let len' := len + t.value.length
    if len' > 200 then false
    else
      let level' : Int :=
        if t.type == .openParen then level + 1
        else if t.type == .closeParen then level - 1
        else level
      if t.type == .closeParen && level' == 0 then true
      else if isForbiddenToken t then false
      else isInlineBlockGo rest len' level'

def isInlineBlock (tokens : List Token) (index : Nat) : Bool :=
  isInlineBlockGo (tokens.drop index) 0 0

/-- `InlineBlock.beginIfPossible` (`part_000` lines 153-163) acting on the level. -/
def beginIfPossible (tokens : List Token) (index : Nat) (level : Int) : Int :=
  if level == 0 && isInlineBlock tokens index then 1
  else if level > 0 then level + 1
  else 0

/-- A caller-supplied parameter source: a name-keyed object or a positional array. -/
inductive ParamsSource where
  | byName (m : List (List Char × List Char))
  | positional (xs : List (List Char))
deriving DecidableEq

/-- State of the Params resolver (`part_000` lines 227-252). -/
structure Params where
  params : Option ParamsSource
  index : Nat
deriving DecidableEq

def lookupAssoc : List (List Char × List Char) → List Char → Option (List Char)
  | [], _ => none
  | (k, v) :: rest, key => if k == key then some v else lookupAssoc rest key

/-- JS array access with a string key: only a canonical numeric string reaches
an element; everything else is an absent property. -/
def jsArrayGetChars (xs : List (List Char)) (k : List Char) : Option (List Char) :=
  match (String.mk k).toNat? with
  | some n => if Nat.repr n = String.mk k then xs.get? n else none
  | none => none

/-- `this.params[this.index++]`: the cursor advances even when the lookup is
out of bounds; on an object source the numeric index is coerced to a string key. -/
def positionalGet (src : ParamsSource) (p : Params) : Option (List Char) × Params :=
  ((match src with
    | .byName m => lookupAssoc m (Nat.repr p.index).data
    | .positional xs => xs.get? p.index),
   { p with index := p.index + 1 })

/-- `Params.get` (`part_000` lines 243-251): without a source, the raw token
value; with a truthy key (JS truthiness: a non-empty string), the keyed value;
otherwise the next positional value.  A failed lookup is JS `undefined`,
modeled as `none`. -/
def Params.get (p : Params) (tok : Token) : Option (List Char) × Params :=
  match p.params with
  | none => (some tok.value, p)
  | some src =>
    match tok.key with
    | some k =>
      if k ≠ [] then
        ((match src with
          | .byName m => lookupAssoc m k
          | .positional xs => jsArrayGetChars xs k), p)
      else positionalGet src p
    | none => positionalGet src p

/-- lodash `trimEnd(query)`: strip trailing whitespace. -/
def trimEndChars (q : List Char) : List Char :=
  (q.reverse.dropWhile jsSpace).reverse

/-- `String.prototype.trim`: strip whitespace from both ends. -/
def jsTrim (q : List Char) : List Char :=
  (trimEndChars q).dropWhile jsSpace

/-- Scan of `equalizeWhitespace`: `inRun` records whether the previous
character belonged to a whitespace run already replaced by its single space. -/
def eqWsGo : Bool → List Char → List Char
  | _, [] => []
  | inRun, c :: rest =>
    if jsSpace c then
      if inRun then eqWsGo true rest else ' ' :: eqWsGo true rest
    else c :: eqWsGo false rest

/-- `equalizeWhitespace` (`Formatter.js` lines 236-239): replace every run of
whitespace characters by a single space. -/
def equalizeWhitespace (cs : List Char) : List Char :=
  eqWsGo false cs

def toLowerChars (v : List Char) : List Char :=
  v.map Char.toLower

/-- Formatter configuration (`cfg.indent`, `cfg.params`). -/
structure Config where
  indent : Option (List Char) := none
  params : Option ParamsSource := none

/-- The mutable state of a Formatter run (`Formatter.js` lines 14-23), apart
from the token array and index which are passed around explicitly. -/
structure FmtState where
  ind : Indentation
  inlineLevel : Int
  pr : Params
  previousReservedWord : Option Token

def initState (cfg : Config) : FmtState :=
  { ind := Indentation.new cfg.indent
    inlineLevel := 0
    pr := { params := cfg.params, index := 0 }
    previousReservedWord := none }

/-- `previousToken(n)`: `this.tokens[this.index - n] || {}`; a negative JS index
reads an absent property, hence `none`. -/
def previousTokenAt (tokens : List Token) (i n : Nat) : Option Token :=
  if n ≤ i then tokens.get? (i - n) else none

def prevNonWsFrom (tokens : List Token) : Nat → Option Token
  | 0 => none
  | j + 1 =>
    match tokens.get? j with
    | some t => if t.type == .whitespace then prevNonWsFrom tokens j else some t
    | none => none

/-- `previousNonWhitespaceToken`: step back over whitespace tokens; the empty
object reached past the start of the array is `none`. -/
def previousNonWhitespaceToken (tokens : List Token) (i : Nat) : Option Token :=
  prevNonWsFrom tokens i

def followNonWsFrom (tokens : List Token) : Nat → Nat → Option Token × Nat
  | 0, j => (none, j)
  | fuel + 1, j =>
    match tokens.get? j with
    | none => (none, j)
    | some t => if t.type == .whitespace then followNonWsFrom tokens fuel (j + 1) else (some t, j)

/-- `followNonWhitespaceTokenIndex`: step forward over whitespace tokens,
returning the token (the empty object, `none`, past the end) and its index. -/
def followNonWhitespaceTokenIndex (tokens : List Token) (i : Nat) : Option Token × Nat :=
  followNonWsFrom tokens (tokens.length + 1) (i + 1)

def optTypeIs (t : Option Token) (ty : TokenType) : Bool :=
  match t with
  | some x => x.type == ty
  | none => false

def optValueIs (t : Option Token) (v : List Char) : Bool :=
  match t with
  | some x => x.value == v
  | none => false

/-- `/^LIMIT$/i.test(this.previousReservedWord.value)`; on the initial empty
object the value is `undefined` and the test is false. -/
def prevIsLimit (t : Option Token) : Bool :=
  match t with
  | some x => toLowerChars x.value == "limit".data
  | none => false

/-- `addNewline` (`Formatter.js` lines 350-356): reading the one-shot trim flag
decides whether the accumulated query is right-trimmed before the newline. -/
def addNewline (st : FmtState) (q : List Char) : FmtState × List Char :=
  let p := st.ind.getTrimEnd
  let st' := { st with ind := p.2 }
  if p.1 then (st', trimEndChars q ++ '\n' :: p.2.getIndent)
  else (st', q ++ '\n' :: p.2.getIndent)

/-- `trimTrailingWhitespace` (`Formatter.js` lines 358-366). -/
def trimTrailingWhitespace (tokens : List Token) (i : Nat) (q : List Char) : List Char :=
  if optTypeIs (previousNonWhitespaceToken tokens i) .lineComment then
    trimEndChars q ++ ['\n']
  else trimEndChars q

/-- `indentComment`: re-indent internal newlines of a block comment. -/
def indentComment (st : FmtState) (v : List Char) : List Char :=
  v.flatMap (fun c => if c == '\n' then '\n' :: st.ind.getIndent else [c])

def formatWithSpaces (st : FmtState) (t : Token) (q : List Char) : List Char :=
  if st.ind.getWhiteSpace then q ++ t.value ++ [' '] else q ++ t.value

def formatWithSpaceAfter (tokens : List Token) (i : Nat) (t : Token) (q : List Char) : List Char :=
  trimTrailingWhitespace tokens i q ++ t.value ++ [' ']

def formatWithoutSpaces (tokens : List Token) (i : Nat) (t : Token) (q : List Char) : List Char :=
  trimTrailingWhitespace tokens i q ++ t.value

/-- `formaReserverdWords` (`Formatter.js` lines 323-340): both branches of the
`getWhiteSpace()` conditional are identical in this snapshot — pad with a
leading space unless the last emitted character is already a space. -/
def formaReserverdWords (t : Token) (q : List Char) : List Char :=
  if q.getLast? == some ' ' then q ++ toLowerChars t.value ++ [' ']
  else q ++ ' ' :: toLowerChars t.value ++ [' ']

/-- `formatComma` (`Formatter.js` lines 303-313). -/
def formatComma (tokens : List Token) (i : Nat) (t : Token) (st : FmtState) (q : List Char) :
    FmtState × List Char :=
  let q1 := trimTrailingWhitespace tokens i q ++ t.value ++ [' ']
  if st.inlineLevel > 0 then (st, q1)
  else if prevIsLimit st.previousReservedWord then (st, q1)
  else addNewline st q1

/-- `formatToplevelReservedWord` (`Formatter.js` lines 185-196). -/
def formatToplevelReservedWord (tokens : List Token) (i : Nat) (t : Token) (st : FmtState)
    (q : List Char) : FmtState × List Char :=
  let st1 := { st with ind := st.ind.decreaseTopLevel }
  let p :=
    if !(optTypeIs (previousNonWhitespaceToken tokens i) .openParen) then addNewline st1 q
    else (st1, trimEndChars q ++ [' '])
  let st3 := { p.1 with ind := p.1.ind.increaseToplevel }
  addNewline st3 (p.2 ++ equalizeWhitespace (toLowerChars t.value))

/-- `formatToplevelInLineReservedWord` (`Formatter.js` lines 198-207). -/
def formatToplevelInLineReservedWord (t : Token) (st : FmtState)
    (q : List Char) : FmtState × List Char :=
  let st1 := { st with ind := st.ind.decreaseTopLevel }
  let p := addNewline st1 q
  let st3 := { p.1 with ind := p.1.ind.increaseToplevel }
  (st3, p.2 ++ equalizeWhitespace (toLowerChars t.value) ++ [' '])

/-- `formatUnionWords` (`Formatter.js` lines 209-220). -/
def formatUnionWords (t : Token) (st : FmtState) (q : List Char) : FmtState × List Char :=
  let st1 := { st with ind := st.ind.setNoTrimEnd }
  let q1 := q ++ '\n' :: st1.ind.getIndent
  let st2 := { st1 with ind := st1.ind.decreaseTopLevel }
  let st3 := { st2 with ind := st2.ind.setNoTrimEnd }
  let q2 := q1 ++ '\n' :: st3.ind.getIndent
  let q3 := q2 ++ toLowerChars t.value ++ ['\n']
  ({ st3 with ind := st3.ind.setNoTrimEnd }, q3)

/-- `formatNewlineReservedWord` (`Formatter.js` lines 222-234). -/
def formatNewlineReservedWord (t : Token) (st : FmtState) (q : List Char) :
    FmtState × List Char :=
  let p := st.ind.getStartNewLine
  let st1 := { st with ind := p.2 }
  if p.1 then
    let p2 := addNewline st1 q
    (p2.1, p2.2 ++ equalizeWhitespace (toLowerChars t.value) ++ [' '])
  else (st1, q ++ equalizeWhitespace (toLowerChars t.value) ++ [' '])

/-- `formatOpeningParentheses` (`Formatter.js` lines 242-276). -/
def formatOpeningParentheses (tokens : List Token) (i : Nat) (t : Token) (st : FmtState)
    (q : List Char) : FmtState × List Char :=
  let pnw := previousNonWhitespaceToken tokens i
  if optTypeIs pnw .reservedToplevelInline ||
     (optValueIs pnw ",".data && toLowerChars t.value == "case".data) then
    let p := addNewline st q
    ({ p.1 with ind := p.1.ind.increaseBlockLevel }, p.2 ++ t.value)
  else
    let pt := previousTokenAt tokens i 1
    let preserve := optTypeIs pt .whitespace || optTypeIs pt .openParen || optTypeIs pt .lineComment
    let q1 := if !preserve then trimEndChars q else q
    let q2 := q1 ++ t.value
    let lvl := beginIfPossible tokens i st.inlineLevel
    let st1 := { st with inlineLevel := lvl }
    if !(lvl > 0) then
      let st2 := { st1 with ind := st1.ind.increaseBlockLevel }
      addNewline st2 q2
    else (st1, q2)

/-- `formatClosingParentheses` (`Formatter.js` lines 279-287). -/
def formatClosingParentheses (tokens : List Token) (i : Nat) (t : Token) (st : FmtState)
    (q : List Char) : FmtState × List Char :=
  if st.inlineLevel > 0 then
    ({ st with inlineLevel := st.inlineLevel - 1 }, formatWithSpaceAfter tokens i t q)
  else
    let st1 := { st with ind := st.ind.decreaseBlockLevel }
    let p := addNewline st1 q
    (p.1, formatWithSpaces p.1 t p.2)

/-- `formatPlaceholder` (`Formatter.js` lines 289-291): JS string concatenation
renders an undefined lookup as the text `undefined`. -/
def formatPlaceholder (t : Token) (st : FmtState) (q : List Char) : FmtState × List Char :=
  let p := st.pr.get t
  ({ st with pr := p.2 },
   q ++ (match p.1 with | some s => s | none => "undefined".data) ++ [' '])

/-- `endCodeBlock` (`Formatter.js` lines 293-298). -/
def endCodeBlock (t : Token) (st : FmtState) (q : List Char) : FmtState × List Char :=
  let q1 := q ++ t.value ++ ['\n']
  let st1 := { st with ind := st.ind.setNoTrimEnd }
  ({ st1 with ind := st1.ind.decreaseBlockLevel }, q1)

/-- Space normalization applied to comments: insert a space at string index 2
unless the character there is already a space (`splice(2, 0, ' ')` appends at
the end when the text is shorter than two characters). -/
def normalizeAt2 (v : List Char) : List Char :=
  if v.get? 2 == some ' ' then v else v.take 2 ++ ' ' :: v.drop 2

/-- `formatLineComment` (`Formatter.js` lines 131-163).  When the next
non-whitespace token is a comma, the comment and the comma swap places in the
token array and the comma is formatted instead; otherwise the comment text is
normalized (mutating the stored token) and emitted according to the
surrounding tokens. -/
def formatLineComment (tokens : List Token) (i : Nat) (t : Token) (st : FmtState)
    (q : List Char) : List Token × FmtState × List Char :=
  let fp := followNonWhitespaceTokenIndex tokens i
  if optValueIs fp.1 ",".data then
    match fp.1 with
    | some commaToken =>
      let tokens2 := (tokens.set fp.2 t).set i commaToken
      let p := formatComma tokens2 i commaToken st q
      (tokens2, p.1, p.2)
    | none => (tokens, st, q)
  else
    let v := normalizeAt2 t.value
    let tokens2 := tokens.set i { t with value := v }
    let pnw := previousNonWhitespaceToken tokens2 i
    if optTypeIs pnw .unionWords then
      (tokens2, { st with ind := st.ind.setNoTrimEnd }, trimEndChars q ++ ' ' :: v)
    else if !(optValueIs pnw ";".data) && !(optTypeIs pnw .lineComment) then
      let p := addNewline st v
      (tokens2, p.1, trimEndChars q ++ ' ' :: p.2)
    else
      let p1 := addNewline st q
      let p2 := addNewline p1.1 v
      (tokens2, p2.1, p1.2 ++ p2.2)

/-- `formatBlockComment` (`Formatter.js` lines 165-179): normalize, force a
newline before and after, and re-indent internal newlines. -/
def formatBlockComment (tokens : List Token) (i : Nat) (t : Token) (st : FmtState)
    (q : List Char) : List Token × FmtState × List Char :=
  let v := normalizeAt2 t.value
  let tokens2 := tokens.set i { t with value := v }
  let p1 := addNewline st q
  let p2 := addNewline p1.1 (p1.2 ++ indentComment p1.1 v)
  (tokens2, p2.1, p2.2)

/-- One iteration of the dispatch in `getFormattedQueryFromTokens`
(`Formatter.js` lines 43-127), in source branch order. -/
def stepToken (tokens : List Token) (i : Nat) (t : Token) (st : FmtState) (q : List Char) :
    List Token × FmtState × List Char :=
  if t.type == .whitespace then (tokens, st, q)
  else if t.type == .lineComment then formatLineComment tokens i t st q
  else if t.type == .blockComment then formatBlockComment tokens i t st q
  else if t.type == .reservedToplevel then
    let p := formatToplevelReservedWord tokens i t st q
    (tokens, { p.1 with previousReservedWord := some t }, p.2)
  else if t.type == .reservedNewline then
    let p := formatNewlineReservedWord t st q
    let st2 :=
      if startsWithCI "add jar".data t.value || startsWithCI "set".data t.value then
        { p.1 with ind := p.1.ind.setWhiteSpace false }
      else p.1
    (tokens, { st2 with previousReservedWord := some t }, p.2)
  else if t.type == .reservedToplevelInline then
    let p := formatToplevelInLineReservedWord t st q
    (tokens, { p.1 with previousReservedWord := some t }, p.2)
  else if t.type == .unionWords then
    let p := formatUnionWords t st q
    (tokens, { p.1 with previousReservedWord := some t }, p.2)
  else if t.type == .reserved then
    let st0 :=
      if startsWithCI "between".data t.value then { st with ind := st.ind.setNoNewLine }
      else st
    (tokens, { st0 with previousReservedWord := some t }, formaReserverdWords t q)
  else if t.type == .openParen then
    let p := formatOpeningParentheses tokens i t st q
    (tokens, p.1, p.2)
  else if t.type == .closeParen then
    let p := formatClosingParentheses tokens i t st q
    (tokens, p.1, p.2)
  else if t.type == .placeholder then
    let p := formatPlaceholder t st q
    (tokens, p.1, p.2)
  else if t.value == ",".data then
    let p := formatComma tokens i t st q
    (tokens, p.1, p.2)
  else if t.value == ":".data then (tokens, st, formatWithoutSpaces tokens i t q)
  else if t.value == ".".data then (tokens, st, formatWithoutSpaces tokens i t q)
  else if t.value == "$".data then (tokens, st, formatWithoutSpaces tokens i t q)
  else if t.value == "\x7b".data then (tokens, st, formatWithoutSpaces tokens i t q)
  else if t.value == "\x7d".data then (tokens, st, formatWithoutSpaces tokens i t q)
  else if t.value == ";".data then
    let st0 := { st with ind := st.ind.setWhiteSpace true }
    let p := endCodeBlock t st0 q
    (tokens, p.1, p.2)
  else (tokens, st, formatWithSpaces st t q)

/-- The `forEach` walk over the token array.  The array is mutated only by the
length-preserving comment/comma swap, so fuel equal to the initial length
visits exactly the indices `0 .. length - 1`. -/
def formatLoop : Nat → Nat → List Token → FmtState → List Char → List Char
  | 0, _, _, _, q => q
  | fuel + 1, i, tokens, st, q =>
    match tokens.get? i with
    | none => q
    | some t =>
      let r := stepToken tokens i t st q
      formatLoop fuel (i + 1) r.1 r.2.1 r.2.2

def getFormattedQueryFromTokens (cfg : Config) (tokens : List Token) : List Char :=
  formatLoop tokens.length 0 tokens (initState cfg) []

/-- `Formatter.format` (`Formatter.js` lines 31-38): tokenize, walk, trim. -/
def formatQueryChars (cfg : Config) (q : List Char) : List Char :=
  jsTrim (getFormattedQueryFromTokens cfg (tokenizeChars q))

def format (cfg : Config) (s : String) : String :=
  String.mk (formatQueryChars cfg s.data)

/-- The public entry point `sqlFormatter.format(query)`: a SparkSqlFormatter
constructed with an empty configuration object. -/
def formatS (s : String) : String :=
  format { indent := none, params := none } s

/-- Concatenation of the value fields of a token sequence, in order. -/
def joinValues (ts : List Token) : List Char :=
  ts.foldr (fun t acc => t.value ++ acc) []

/-- An input whose parenthesized region exceeds 200 characters only because of
internal whitespace: an open paren, 199 spaces, a close paren. -/
def c1Input : String :=
  "(" ++ String.mk (List.replicate 199 ' ') ++ ")"

/-- A token sequence holding a line comment between matching parens. -/
def c3Tokens : List Token :=
  [{ type := .openParen, value := "(".data, key := none },
   { type := .lineComment, value := "--x\n".data, key := none },
   { type := .closeParen, value := ")".data, key := none }]

/-- A configuration supplying the named parameter of the spec's Scenario 5. -/
def c6Cfg : Config :=
  { indent := none, params := some (.byName [("name".data, "\x27x\x27".data)]) }

/-- A comma token. -/
def c5Tok : Token := { type := .operator, value := ",".data, key := none }

/-- A formatter state inside an active inline block. -/
def c5StInline : FmtState :=
  { ind := Indentation.new none, inlineLevel := 1,
    pr := { params := none, index := 0 }, previousReservedWord := none }

/-- A formatter state with no active inline block and no previous reserved word. -/
def c5StPlain : FmtState :=
  { ind := Indentation.new none, inlineLevel := 0,
    pr := { params := none, index := 0 }, previousReservedWord := none }

/-- A keyless placeholder token. -/
def c9Tok : Token := { type := .placeholder, value := "?".data, key := none }

/-! ### Auxiliary lemmas: every recognizer consumes a non-empty prefix -/

theorem orElse_eq_some_cases {α : Type} {a b : Option α} {x : α}
    (h : (a <|> b) = some x) : a = some x ∨ b = some x := by
  cases a with
  | none => right; simpa using h
  | some v => left; simpa using h

theorem isSome_orElse_right {α : Type} {a b : Option α} (h : b.isSome) :
    (a <|> b).isSome := by
  cases a <;> simp [h]

theorem isSome_orElse_left {α : Type} {a b : Option α} (h : a.isSome) :
    (a <|> b).isSome := by
  cases a with
  | none => simp at h
  | some v => simp

theorem map_add_pos {r : Option Nat} {k n : Nat} (hk : 1 ≤ k)
    (h : r.map (fun m => k + m) = some n) : 1 ≤ n := by
  rcases Option.map_eq_some'.mp h with ⟨m, _, rfl⟩
  omega

theorem matchWhitespace_pos {cs : List Char} {n : Nat}
    (h : matchWhitespace cs = some n) : 1 ≤ n := by
  simp only [matchWhitespace] at h
  split at h
  · exact absurd h (by simp)
  · rename_i hk
    cases h
    omega

theorem matchLineComment_pos {cs : List Char} {n : Nat}
    (h : matchLineComment cs = some n) : 1 ≤ n := by
  unfold matchLineComment at h
  split at h
  · exact map_add_pos (by omega) h
  · exact map_add_pos (by omega) h
  · exact absurd h (by simp)

theorem matchBlockComment_pos {cs : List Char} {n : Nat}
    (h : matchBlockComment cs = some n) : 1 ≤ n := by
  unfold matchBlockComment at h
  split at h
  · exact map_add_pos (by omega) h
  · exact absurd h (by simp)

theorem matchDq_pos {cs : List Char} {n : Nat}
    (h : matchDq cs = some n) : 1 ≤ n := by
  unfold matchDq at h
  split at h
  · exact map_add_pos (by omega) h
  · exact absurd h (by simp)

theorem matchNq_pos {cs : List Char} {n : Nat}
    (h : matchNq cs = some n) : 1 ≤ n := by
  unfold matchNq at h
  split at h
  · exact map_add_pos (by omega) h
  · exact absurd h (by simp)

theorem matchSq_pos {cs : List Char} {n : Nat}
    (h : matchSq cs = some n) : 1 ≤ n := by
  unfold matchSq at h
  split at h
  · exact map_add_pos (by omega) h
  · exact absurd h (by simp)

theorem matchBq_pos {cs : List Char} {n : Nat}
    (h : matchBq cs = some n) : 1 ≤ n := by
  unfold matchBq at h
  split at h
  · split at h
    · exact map_add_pos (by omega) h
    · exact absurd h (by simp)
  · exact absurd h (by simp)

theorem matchBracket_pos {cs : List Char} {n : Nat}
    (h : matchBracket cs = some n) : 1 ≤ n := by
  unfold matchBracket at h
  split at h
  · cases h; omega
  · exact absurd h (by simp)

theorem matchString_pos {cs : List Char} {n : Nat}
    (h : matchString cs = some n) : 1 ≤ n := by
  unfold matchString at h
  rcases orElse_eq_some_cases h with h | h
  · exact matchDq_pos h
  rcases orElse_eq_some_cases h with h | h
  · exact matchNq_pos h
  rcases orElse_eq_some_cases h with h | h
  · exact matchSq_pos h
  rcases orElse_eq_some_cases h with h | h
  · exact matchBq_pos h
  · exact matchBracket_pos h

theorem matchOpenParen_pos {cs : List Char} {n : Nat}
    (h : matchOpenParen cs = some n) : 1 ≤ n := by
  unfold matchOpenParen at h
  split at h
  · cases h; omega
  · split at h
    · cases h; omega
    · exact absurd h (by simp)

theorem matchCloseParen_pos {cs : List Char} {n : Nat}
    (h : matchCloseParen cs = some n) : 1 ≤ n := by
  unfold matchCloseParen at h
  split at h
  · cases h; omega
  · split at h
    · cases h; omega
    · exact absurd h (by simp)

theorem matchNumAlt1_pos {cs : List Char} {n : Nat}
    (h : matchNumAlt1 cs = some n) : 1 ≤ n := by
  simp only [matchNumAlt1] at h
  split at h
  · exact absurd h (by simp)
  · rename_i hd
    split at h
    · split at h
      · cases h; omega
      · cases h; omega
    · split at h
      · cases h; omega
      · exact absurd h (by simp)

theorem matchNumAlt2_pos {cs : List Char} {n : Nat}
    (h : matchNumAlt2 cs = some n) : 1 ≤ n := by
  simp only [matchNumAlt2] at h
  split at h
  · split at h
    · exact absurd h (by simp)
    · split at h
      · cases h; omega
      · exact absurd h (by simp)
  · exact absurd h (by simp)

theorem matchNumAlt3_pos {cs : List Char} {n : Nat}
    (h : matchNumAlt3 cs = some n) : 1 ≤ n := by
  simp only [matchNumAlt3] at h
  split at h
  · split at h
    · exact absurd h (by simp)
    · split at h
      · cases h; omega
      · exact absurd h (by simp)
  · exact absurd h (by simp)

theorem matchNumber_pos {cs : List Char} {n : Nat}
    (h : matchNumber cs = some n) : 1 ≤ n := by
  unfold matchNumber at h
  rcases orElse_eq_some_cases h with h | h
  · exact matchNumAlt1_pos h
  rcases orElse_eq_some_cases h with h | h
  · exact matchNumAlt2_pos h
  · exact matchNumAlt3_pos h

theorem matchKw_length_le {items : List KwItem} :
    ∀ {cs : List Char} {n : Nat}, matchKw items cs = some n → items.length ≤ n := by
  induction items with
  | nil => intro cs n _; simp
  | cons i pat ih =>
    intro cs n h
    cases i with
    | spaces =>
      simp only [matchKw] at h
      split at h
      · exact absurd h (by simp)
      · rename_i hk
        rcases Option.map_eq_some'.mp h with ⟨m, hm, rfl⟩
        have := ih hm
        simp only [List.length_cons]
        omega
    | ch p =>
      cases cs with
      | nil => simp [matchKw] at h
      | cons c cs' =>
        simp only [matchKw] at h
        split at h
        · rcases Option.map_eq_some'.mp h with ⟨m, hm, rfl⟩
          have := ih hm
          simp only [List.length_cons]
          omega
        · exact absurd h (by simp)

theorem matchKeywordList_pos {ws : List String} :
    ∀ {cs : List Char} {n : Nat}, (∀ w ∈ ws, 1 ≤ (kwItems w.data).length) →
      matchKeywordList ws cs = some n → 1 ≤ n := by
  induction ws with
  | nil => intro cs n _ h; simp [matchKeywordList] at h
  | cons w rest ih =>
    intro cs n hall h
    simp only [matchKeywordList] at h
    split at h
    · rename_i m hm
      split at h
      · have hmn : m = n := by simpa using h
        have h1 : 1 ≤ (kwItems w.data).length := hall w (by simp)
        have h2 := matchKw_length_le (show matchKw (kwItems w.data) cs = some m from hm)
        omega
      · exact ih (fun x hx => hall x (by simp [hx])) h
    · exact ih (fun x hx => hall x (by simp [hx])) h

theorem matchWord_pos {cs : List Char} {n : Nat}
    (h : matchWord cs = some n) : 1 ≤ n := by
  simp only [matchWord] at h
  split at h
  · exact absurd h (by simp)
  · rename_i hk
    cases h
    omega

theorem opGo_pos {os : List (List Char)} :
    ∀ {cs : List Char} {n : Nat}, (∀ o ∈ os, 1 ≤ o.length) →
      opGo os cs = some n → 1 ≤ n := by
  induction os with
  | nil =>
    intro cs n _ h
    unfold opGo at h
    split at h
    · split at h
      · exact absurd h (by simp)
      · cases h; omega
    · exact absurd h (by simp)
  | cons o os ih =>
    intro cs n hall h
    simp only [opGo] at h
    split at h
    · cases h
      exact hall o (by simp)
    · exact ih (fun x hx => hall x (by simp [hx])) h

theorem matchOperator_pos {cs : List Char} {n : Nat}
    (h : matchOperator cs = some n) : 1 ≤ n :=
  opGo_pos (by decide) h

theorem tokenOfMatch_eq_some {ty : TokenType} {cs : List Char} {r : Option Nat} {t : Token}
    (h : tokenOfMatch ty cs r = some t) :
    ∃ n, r = some n ∧ t = { type := ty, value := cs.take n, key := none } := by
  rcases Option.map_eq_some'.mp h with ⟨n, hn, rfl⟩
  exact ⟨n, hn, rfl⟩

theorem getNextToken_value {cs : List Char} {prev : Option Token} {t : Token}
    (h : getNextToken cs prev = some t) :
    ∃ n, 1 ≤ n ∧ t.value = cs.take n := by
  unfold getNextToken at h
  rcases orElse_eq_some_cases h with h | h
  · rcases tokenOfMatch_eq_some h with ⟨n, hn, rfl⟩
    exact ⟨n, matchWhitespace_pos hn, rfl⟩
  rcases orElse_eq_some_cases h with h | h
  · unfold getCommentToken at h
    rcases orElse_eq_some_cases h with h | h
    · rcases tokenOfMatch_eq_some h with ⟨n, hn, rfl⟩
      exact ⟨n, matchLineComment_pos hn, rfl⟩
    · rcases tokenOfMatch_eq_some h with ⟨n, hn, rfl⟩
      exact ⟨n, matchBlockComment_pos hn, rfl⟩
  rcases orElse_eq_some_cases h with h | h
  · rcases tokenOfMatch_eq_some h with ⟨n, hn, rfl⟩
    exact ⟨n, matchString_pos hn, rfl⟩
  rcases orElse_eq_some_cases h with h | h
  · rcases tokenOfMatch_eq_some h with ⟨n, hn, rfl⟩
    exact ⟨n, matchOpenParen_pos hn, rfl⟩
  rcases orElse_eq_some_cases h with h | h
  · rcases tokenOfMatch_eq_some h with ⟨n, hn, rfl⟩
    exact ⟨n, matchCloseParen_pos hn, rfl⟩
  rcases orElse_eq_some_cases h with h | h
  · rcases tokenOfMatch_eq_some h with ⟨n, hn, rfl⟩
    exact ⟨n, matchNumber_pos hn, rfl⟩
  rcases orElse_eq_some_cases h with h | h
  · unfold getReservedWordToken at h
    split at h
    · exact absurd h (by simp)
    · rcases orElse_eq_some_cases h with h | h
      · rcases tokenOfMatch_eq_some h with ⟨n, hn, rfl⟩
        exact ⟨n, matchKeywordList_pos (by decide) hn, rfl⟩
      rcases orElse_eq_some_cases h with h | h
      · rcases tokenOfMatch_eq_some h with ⟨n, hn, rfl⟩
        exact ⟨n, matchKeywordList_pos (by decide) hn, rfl⟩
      rcases orElse_eq_some_cases h with h | h
      · rcases tokenOfMatch_eq_some h with ⟨n, hn, rfl⟩
        exact ⟨n, matchKeywordList_pos (by decide) hn, rfl⟩
      rcases orElse_eq_some_cases h with h | h
      · rcases tokenOfMatch_eq_some h with ⟨n, hn, rfl⟩
        exact ⟨n, matchKeywordList_pos (by decide) hn, rfl⟩
      · rcases tokenOfMatch_eq_some h with ⟨n, hn, rfl⟩
        exact ⟨n, matchKeywordList_pos (by decide) hn, rfl⟩
  rcases orElse_eq_some_cases h with h | h
  · rcases tokenOfMatch_eq_some h with ⟨n, hn, rfl⟩
    exact ⟨n, matchWord_pos hn, rfl⟩
  · rcases tokenOfMatch_eq_some h with ⟨n, hn, rfl⟩
    exact ⟨n, matchOperator_pos hn, rfl⟩

theorem lineTerm_jsSpace {c : Char} (h : isLineTerm c = true) : jsSpace c = true := by
  simp only [isLineTerm, Bool.or_eq_true, beq_iff_eq] at h
  rcases h with ((h | h) | h) | h <;> subst h <;> decide

theorem opGo_total {c : Char} {cs : List Char} (hlt : isLineTerm c = false) :
    ∀ (os : List (List Char)), (opGo os (c :: cs)).isSome := by
  intro os
  induction os with
  | nil => simp [opGo, hlt]
  | cons o os ih =>
    simp only [opGo]
    split
    · simp
    · exact ih

theorem getNextToken_total {cs : List Char} (prev : Option Token) (hne : cs ≠ []) :
    (getNextToken cs prev).isSome := by
  rcases cs with _ | ⟨c, cs'⟩
  · exact absurd rfl hne
  unfold getNextToken
  by_cases hsp : jsSpace c = true
  · apply isSome_orElse_left
    unfold getWhitespaceToken tokenOfMatch
    simp [matchWhitespace, List.takeWhile_cons, hsp]
  · apply isSome_orElse_right
    apply isSome_orElse_right
    apply isSome_orElse_right
    apply isSome_orElse_right
    apply isSome_orElse_right
    apply isSome_orElse_right
    apply isSome_orElse_right
    apply isSome_orElse_right
    have hlt : isLineTerm c = false := by
      cases hl : isLineTerm c
      · rfl
      · rw [lineTerm_jsSpace hl] at hsp; exact absurd rfl hsp
    unfold getOperatorToken tokenOfMatch matchOperator
    have hop := @opGo_total c cs' hlt opChars
    cases h : opGo opChars (c :: cs') with
    | none => rw [h] at hop; simp at hop
    | some n => simp [h]

theorem take_prefix_decomp {cs : List Char} {n : Nat} (h1 : 1 ≤ n) (hne : cs ≠ []) :
    1 ≤ (cs.take n).length ∧ cs.take n ++ cs.drop (cs.take n).length = cs := by
  constructor
  · rcases cs with _ | ⟨c, cs'⟩
    · exact absurd rfl hne
    rw [List.length_take]
    simp only [List.length_cons]
    omega
  · rw [List.length_take]
    by_cases hc : n ≤ cs.length
    · rw [min_eq_left hc]
      exact List.take_append_drop n cs
    · have hlen : cs.length ≤ n := by omega
      rw [min_eq_right hlen, List.take_of_length_le hlen, List.drop_length,
        List.append_nil]

theorem getNextToken_spec {cs : List Char} {prev : Option Token} {t : Token}
    (hne : cs ≠ []) (h : getNextToken cs prev = some t) :
    1 ≤ t.value.length ∧ t.value ++ cs.drop t.value.length = cs := by
  rcases getNextToken_value h with ⟨n, hn, hv⟩
  rw [hv]
  exact take_prefix_decomp hn hne

theorem tokenizeAux_zero (cs : List Char) (prev : Option Token) :
    tokenizeAux 0 cs prev = [] := rfl

theorem tokenizeAux_nil (fuel : Nat) (prev : Option Token) :
    tokenizeAux fuel [] prev = [] := by
  cases fuel <;> rfl

theorem tokenizeAux_cons (fuel : Nat) (c : Char) (cs' : List Char) (prev : Option Token) :
    tokenizeAux (fuel + 1) (c :: cs') prev =
      (match getNextToken (c :: cs') prev with
       | none => []
       | some t => t :: tokenizeAux fuel ((c :: cs').drop t.value.length) (some t)) := rfl

theorem joinValues_nil : joinValues [] = [] := rfl

theorem joinValues_cons (t : Token) (l : List Token) :
    joinValues (t :: l) = t.value ++ joinValues l := rfl

theorem tokenizeAux_join :
    ∀ (fuel : Nat) (cs : List Char) (prev : Option Token), cs.length ≤ fuel →
      joinValues (tokenizeAux fuel cs prev) = cs := by
  intro fuel
  induction fuel with
  | zero =>
    intro cs prev h
    rcases cs with _ | ⟨c, cs'⟩
    · rw [tokenizeAux_zero, joinValues_nil]
    · simp at h
  | succ fuel ih =>
    intro cs prev h
    rcases cs with _ | ⟨c, cs'⟩
    · rw [tokenizeAux_nil, joinValues_nil]
    · have htot := @getNextToken_total (c :: cs') prev (by simp)
      rcases Option.isSome_iff_exists.mp htot with ⟨t, ht⟩
      rw [tokenizeAux_cons, ht]
      rcases getNextToken_spec (by simp) ht with ⟨hpos, hdecomp⟩
      have hlen : ((c :: cs').drop t.value.length).length ≤ fuel := by
        rw [List.length_drop]
        simp only [List.length_cons] at h ⊢
        omega
      rw [joinValues_cons, ih ((c :: cs').drop t.value.length) (some t) hlen]
      exact hdecomp

theorem tokenizeAux_values_nonempty :
    ∀ (fuel : Nat) (cs : List Char) (prev : Option Token),
      (tokenizeAux fuel cs prev).all (fun t => !t.value.isEmpty) = true := by
  intro fuel
  induction fuel with
  | zero => intro cs prev; rw [tokenizeAux_zero]; rfl
  | succ fuel ih =>
    intro cs prev
    rcases cs with _ | ⟨c, cs'⟩
    · rw [tokenizeAux_nil]; rfl
    · rw [tokenizeAux_cons]
      cases ht : getNextToken (c :: cs') prev with
      | none => rfl
      | some t =>
        have hpos := (getNextToken_spec (show c :: cs' ≠ [] by simp) ht).1
        simp only [List.all_cons, Bool.and_eq_true]
        constructor
        · rcases hv : t.value with _ | ⟨x, xs⟩
          · rw [hv] at hpos; simp at hpos
          · simp
        · exact ih _ _

theorem tokenizeAux_fuel_indep :
    ∀ (f1 : Nat) (cs : List Char) (prev : Option Token) (f2 : Nat),
      cs.length ≤ f1 → cs.length ≤ f2 →
      tokenizeAux f1 cs prev = tokenizeAux f2 cs prev := by
  intro f1
  induction f1 with
  | zero =>
    intro cs prev f2 h1 h2
    rcases cs with _ | ⟨c, cs'⟩
    · rw [tokenizeAux_nil, tokenizeAux_nil]
    · simp at h1
  | succ f ih =>
    intro cs prev f2 h1 h2
    rcases cs with _ | ⟨c, cs'⟩
    · rw [tokenizeAux_nil, tokenizeAux_nil]
    · rcases f2 with _ | f2'
      · simp at h2
      · rw [tokenizeAux_cons, tokenizeAux_cons]
        cases ht : getNextToken (c :: cs') prev with
        | none => rfl
        | some t =>
          have hpos := (getNextToken_spec (show c :: cs' ≠ [] by simp) ht).1
          have hlen : ((c :: cs').drop t.value.length).length ≤ f := by
            rw [List.length_drop]
            simp only [List.length_cons] at h1 ⊢
            omega
          have hlen2 : ((c :: cs').drop t.value.length).length ≤ f2' := by
            rw [List.length_drop]
            simp only [List.length_cons] at h2 ⊢
            omega
          exact congrArg (fun l => t :: l) (ih _ (some t) f2' hlen hlen2)

/-! ### Auxiliary lemmas about the indentation stack -/

theorem decreaseBlockLevelTypes_all_top :
    ∀ (s : List IndentType), (∀ x ∈ s, x = IndentType.topLevel) →
      decreaseBlockLevelTypes s = [] := by
  intro s
  induction s with
  | nil => intro _; rfl
  | cons t rest ih =>
    intro h
    have ht := h t (by simp)
    subst ht
    simp only [decreaseBlockLevelTypes, reduceIte]
    exact ih (fun x hx => h x (by simp [hx]))

theorem decreaseBlockLevelTypes_stack :
    ∀ (pre post : List IndentType), (∀ x ∈ pre, x = IndentType.topLevel) →
      decreaseBlockLevelTypes (pre ++ IndentType.blockLevel :: post) = post := by
  intro pre
  induction pre with
  | nil => intro post _; simp [decreaseBlockLevelTypes]
  | cons t rest ih =>
    intro post h
    have ht := h t (by simp)
    subst ht
    simp only [List.cons_append, decreaseBlockLevelTypes, reduceIte]
    exact ih post (fun x hx => h x (by simp [hx]))

theorem decreaseBlockLevelTypes_length_le :
    ∀ (s : List IndentType), (decreaseBlockLevelTypes s).length ≤ s.length := by
  intro s
  induction s with
  | nil => simp [decreaseBlockLevelTypes]
  | cons t rest ih =>
    by_cases ht : t = IndentType.topLevel
    · subst ht
      simp only [decreaseBlockLevelTypes, reduceIte, List.length_cons]
      omega
    · simp only [decreaseBlockLevelTypes, ht, if_false, List.length_cons]
      omega

set_option maxRecDepth 10000

/-! ### The claims -/

/-- C1 (counterexample): `format` is not idempotent.  On an input whose
parenthesized region is longer than 200 characters only because of internal
whitespace, the first pass renders it as a multi-line block but collapses the
whitespace, so the second pass classifies the region as an inline block and
produces a different string. -/
theorem format_idempotent_counterexample :
    formatS (formatS c1Input) ≠ formatS c1Input := by decide

/-- C1 (amended): `format` is not idempotent for all inputs: `c1Input` (an open
paren, 199 spaces, a close paren) formats to `"(\n)"` but re-formats to
`"()"`.  On inputs whose formatting does not change the inline-block
classification — e.g. `SELECT a, b FROM t` — a second `format` reproduces the
output unchanged. -/
theorem format_idempotence_amended :
    formatS c1Input = "(\n)" ∧
    formatS (formatS c1Input) = "()" ∧
    formatS "SELECT a, b FROM t" = "select\n  a,\n  b\nfrom t" ∧
    formatS (formatS "SELECT a, b FROM t") = formatS "SELECT a, b FROM t" :=
  ⟨by decide, by decide, by decide, by decide⟩

/-- C2: tokenization is total and makes progress: on any non-empty input the
recognizer cascade produces a token whose value is non-empty (unrecognized
input falls through to the single-character operator token), and `tokenizeAux`
is independent of its fuel once the fuel reaches the input length — the loop
terminates after consuming the whole input. -/
theorem tokenize_total_progress :
    (∀ (cs : List Char) (prev : Option Token), cs ≠ [] →
       ∃ t, getNextToken cs prev = some t ∧ 1 ≤ t.value.length) ∧
    (∀ (cs : List Char) (fuel : Nat) (prev : Option Token), cs.length ≤ fuel →
       tokenizeAux fuel cs prev = tokenizeAux cs.length cs prev) := by
  constructor
  · intro cs prev hne
    rcases Option.isSome_iff_exists.mp (getNextToken_total prev hne) with ⟨t, ht⟩
    exact ⟨t, ht, (getNextToken_spec hne ht).1⟩
  · intro cs fuel prev h
    exact tokenizeAux_fuel_indep fuel cs prev cs.length h le_rfl

/-- Witness for C2, at the unrecognized single-character input `@`. -/
theorem tokenize_total_progress_witness :
    (∃ t, getNextToken "@".data none = some t ∧ 1 ≤ t.value.length) ∧
    tokenizeAux 7 "@".data none = tokenizeAux "@".data.length "@".data none :=
  ⟨tokenize_total_progress.1 "@".data none (by decide),
   tokenize_total_progress.2 "@".data 7 none (by decide)⟩

/-- C3 (code bug): `beginIfPossible` at level 0 on an open paren followed by a
line comment and the matching close paren judges the region inlineable (level
becomes 1) even though a comment is among the scanned tokens, because
`isForbiddenToken` compares against the non-existent `tokenTypes.COMMENT`
(an `undefined` value) instead of the line-comment type; the source's own
comment says comments are not allowed inside an inline block. -/
theorem inlineBlock_comment_code_bug :
    beginIfPossible c3Tokens 0 0 = 1 ∧
    (c3Tokens.any fun t => t.type == TokenType.lineComment) = true ∧
    isForbiddenToken { type := .lineComment, value := "--x\n".data, key := none } = false := by
  decide

/-- C4: `decreaseBlockLevel` pops the top marker and keeps popping while the
popped markers are top-level, stopping right after the first popped block-level
marker or when the stack is exhausted: when the stack is `pre ++ block :: post`
with `pre` all top-level, the result is exactly `post` (markers pushed before
the popped block-level marker survive untouched); when every marker is
top-level the stack empties; the length never grows (and a `Nat` length cannot
be negative).  The last conjunct ties the list function to the
`Indentation.decreaseBlockLevel` method. -/
theorem decreaseBlockLevel_spec :
    ∀ (s : List IndentType),
      ((∀ x ∈ s, x = IndentType.topLevel) → decreaseBlockLevelTypes s = []) ∧
      (∀ pre post, s = pre ++ IndentType.blockLevel :: post →
        (∀ x ∈ pre, x = IndentType.topLevel) → decreaseBlockLevelTypes s = post) ∧
      (decreaseBlockLevelTypes s).length ≤ s.length ∧
      (∀ ind : Indentation, ind.indentTypes = s →
        ind.decreaseBlockLevel.indentTypes = decreaseBlockLevelTypes s) := by
  intro s
  refine ⟨decreaseBlockLevelTypes_all_top s, ?_, decreaseBlockLevelTypes_length_le s, ?_⟩
  · intro pre post hs hpre
    rw [hs]
    exact decreaseBlockLevelTypes_stack pre post hpre
  · intro ind h
    simp [Indentation.decreaseBlockLevel, h]

/-- Witness for C4 at the stack `[top, block, top]` (head is the top of the
stack): the popped block-level marker cascades away the top-level marker above
it and leaves the marker below it. -/
theorem decreaseBlockLevel_spec_witness :
    decreaseBlockLevelTypes
        [IndentType.topLevel, IndentType.blockLevel, IndentType.topLevel] =
      [IndentType.topLevel] :=
  (decreaseBlockLevel_spec
      [IndentType.topLevel, IndentType.blockLevel, IndentType.topLevel]).2.1
    [IndentType.topLevel] [IndentType.topLevel] rfl (by decide)

/-- C5: `formatComma` trims trailing whitespace, appends the comma and one
space, and forces a newline exactly when no inline block is active and the
most recent reserved word is not LIMIT; end to end,
`SELECT a FROM t LIMIT 1, 2` keeps both LIMIT arguments on one line while the
commas of `SELECT a, b, c` each force a newline. -/
theorem formatComma_spec :
    (∀ (tokens : List Token) (i : Nat) (t : Token) (st : FmtState) (q : List Char),
       st.inlineLevel > 0 ∨ prevIsLimit st.previousReservedWord = true →
       formatComma tokens i t st q =
         (st, trimTrailingWhitespace tokens i q ++ t.value ++ [' '])) ∧
    (∀ (tokens : List Token) (i : Nat) (t : Token) (st : FmtState) (q : List Char),
       st.inlineLevel ≤ 0 → prevIsLimit st.previousReservedWord = false →
       formatComma tokens i t st q =
         addNewline st (trimTrailingWhitespace tokens i q ++ t.value ++ [' '])) ∧
    formatS "SELECT a FROM t LIMIT 1, 2" = "select\n  a\nfrom t\nlimit 1, 2" ∧
    formatS "SELECT a, b, c" = "select\n  a,\n  b,\n  c" := by
  refine ⟨?_, ?_, by decide, by decide⟩
  · intro tokens i t st q h
    unfold formatComma
    rcases h with h | h
    · rw [if_pos h]
    · by_cases h1 : st.inlineLevel > 0
      · rw [if_pos h1]
      · rw [if_neg h1, if_pos h]
  · intro tokens i t st q h1 h2
    unfold formatComma
    rw [if_neg (by omega), if_neg (by simp [h2])]

/-- Witness for C5: inside an inline block the comma does not force a newline;
outside one (with no previous LIMIT) it does. -/
theorem formatComma_spec_witness :
    formatComma [] 0 c5Tok c5StInline "a".data =
      (c5StInline, trimTrailingWhitespace [] 0 "a".data ++ c5Tok.value ++ [' ']) ∧
    formatComma [] 0 c5Tok c5StPlain "a".data =
      addNewline c5StPlain (trimTrailingWhitespace [] 0 "a".data ++ c5Tok.value ++ [' ']) :=
  ⟨formatComma_spec.1 [] 0 c5Tok c5StInline "a".data (Or.inl (by decide)),
   formatComma_spec.2.1 [] 0 c5Tok c5StPlain "a".data (by decide) (by decide)⟩

/-- C6 (counterexample): the tokenizer never emits a placeholder token — the
placeholder recognizer call is commented out of `getNextToken` — so an input
containing `:name`, formatted with a parameter named `name`, is reproduced
verbatim instead of being replaced by the parameter value. -/
theorem placeholder_counterexample :
    ((tokenize ":name").all fun t => !(t.type == TokenType.placeholder)) = true ∧
    format c6Cfg ":name" = ":name" ∧
    format c6Cfg ":name" ≠ "\x27x\x27" :=
  ⟨by decide, by decide, by decide⟩

/-- C6 (amended): `:name` tokenizes as an operator `:` followed by the word
`name`; formatting with the parameter supplied leaves the text unchanged, and
the `Params.get` resolver — dead code, since no placeholder token ever
reaches it — would return the keyed value if it were invoked. -/
theorem placeholder_amended :
    tokenize ":name" =
      [{ type := .operator, value := ":".data, key := none },
       { type := .word, value := "name".data, key := none }] ∧
    format c6Cfg ":name" = ":name" ∧
    (Params.get { params := c6Cfg.params, index := 0 }
        { type := .placeholder, value := ":name".data, key := some "name".data }).1 =
      some "\x27x\x27".data :=
  ⟨by decide, by decide, by decide⟩

/-- C7 (counterexample): the one-shot flags of a fresh `Indentation` start
`undefined` (the field initializers are commented out in the source), so the
first read of either flag returns `false`, not `true`. -/
theorem oneshot_first_read_counterexample :
    (Indentation.new none).getTrimEnd.1 = false ∧
    (Indentation.new none).getStartNewLine.1 = false := by decide

/-- C7 (amended): reading a one-shot flag returns whether it is currently set
and leaves it set afterwards: the first read on a fresh instance returns
`false` (the flags start unset); after `setNoTrimEnd` or `setNoNewLine`
exactly one subsequent read returns `false` and re-arms the flag; any read
immediately following a read returns `true`. -/
theorem oneshot_flags_amended :
    (Indentation.new none).getTrimEnd.1 = false ∧
    (Indentation.new none).getStartNewLine.1 = false ∧
    (∀ st : Indentation,
       st.setNoTrimEnd.getTrimEnd.1 = false ∧
       st.setNoTrimEnd.getTrimEnd.2.toTrimEnd = true ∧
       st.setNoTrimEnd.getTrimEnd.2.getTrimEnd.1 = true) ∧
    (∀ st : Indentation,
       st.setNoNewLine.getStartNewLine.1 = false ∧
       st.setNoNewLine.getStartNewLine.2.toStartNewLine = true ∧
       st.setNoNewLine.getStartNewLine.2.getStartNewLine.1 = true) ∧
    (∀ st : Indentation,
       st.getTrimEnd.2.getTrimEnd.1 = true ∧
       st.getStartNewLine.2.getStartNewLine.1 = true) := by
  refine ⟨by decide, by decide, ?_, ?_, ?_⟩
  · intro st
    refine ⟨?_, ?_, ?_⟩ <;>
      simp [Indentation.setNoTrimEnd, Indentation.getTrimEnd]
  · intro st
    refine ⟨?_, ?_, ?_⟩ <;>
      simp [Indentation.setNoNewLine, Indentation.getStartNewLine]
  · intro st
    constructor
    · by_cases h : st.toTrimEnd <;> simp [Indentation.getTrimEnd, h]
    · by_cases h : st.toStartNewLine <;> simp [Indentation.getStartNewLine, h]

/-- C8 (counterexample): the normalizing space is inserted at string index 2,
not after the marker: a `#` line comment has a one-character marker, so
`#ab` is emitted as `#a b` — the space lands inside the comment content, not
after the marker as the claim states. -/
theorem comment_space_counterexample :
    formatS "#ab" = "#a b" ∧ formatS "#ab" ≠ "# ab" :=
  ⟨by decide, by decide⟩

/-- C8 (amended): every emitted line/block comment gets a space inserted at
index 2 of its text when the character there is not already a space — after
the marker for the two-character markers `--` and `/*` (including when a line
comment is reordered past a following comma), but after the first content
character for one-character `#` comments. -/
theorem comment_space_amended :
    formatS "--ab" = "-- ab" ∧
    formatS "/*x*/" = "/* x*/" ∧
    formatS "#ab" = "#a b" ∧
    formatS "a --c\n, b" = "a, -- c\nb" ∧
    normalizeAt2 "--ab".data = "-- ab".data ∧
    normalizeAt2 "-- ab".data = "-- ab".data :=
  ⟨by decide, by decide, by decide, by decide, by decide, by decide⟩

/-- C9: on a positional parameter source, `Params.get` with a keyless
placeholder token returns the value at the cursor — `none` (JS `undefined`)
when the positional values are exhausted, rather than failing — and the
cursor always advances by one, never rewinding. -/
theorem params_positional_exhausted :
    ∀ (xs : List (List Char)) (i : Nat) (tok : Token), tok.key = none →
      (Params.get { params := some (.positional xs), index := i } tok).1 = xs.get? i ∧
      (Params.get { params := some (.positional xs), index := i } tok).2.index = i + 1 ∧
      (xs.length ≤ i →
        (Params.get { params := some (.positional xs), index := i } tok).1 = none) := by
  intro xs i tok hk
  refine ⟨?_, ?_, ?_⟩
  · simp [Params.get, hk, positionalGet]
  · simp [Params.get, hk, positionalGet]
  · intro hlen
    simp only [Params.get, hk, positionalGet]
    exact List.get?_eq_none.mpr hlen

/-- Witness for C9: one positional value, cursor already at 5: the lookup is
`none` and the cursor advances to 6. -/
theorem params_positional_exhausted_witness :
    (Params.get { params := some (.positional ["a".data]), index := 5 } c9Tok).1 = none ∧
    (Params.get { params := some (.positional ["a".data]), index := 5 } c9Tok).2.index = 5 + 1 :=
  ⟨(params_positional_exhausted ["a".data] 5 c9Tok rfl).2.2 (by decide),
   (params_positional_exhausted ["a".data] 5 c9Tok rfl).2.1⟩

/-- C10: the lexer is lossless: for every input string the concatenation of
the token values produced by `tokenize`, in order, is the input string, and
every token value is non-empty. -/
theorem tokenize_lossless :
    ∀ s : String, String.mk (joinValues (tokenize s)) = s ∧
      (tokenize s).all (fun t => !t.value.isEmpty) = true := by
  intro s
  constructor
  · show String.mk (joinValues (tokenizeAux s.data.length s.data none)) = s
    rw [tokenizeAux_join s.data.length s.data none le_rfl]
  · exact tokenizeAux_values_nonempty s.data.length s.data none

end SqlFormatter
